import Mathlib

/-!
Shallow embedding of the localgenius job/step lifecycle core:
`jobs/job_manager.py` (the Job Store) and `agent_runner.py` (the Execution
Controller), together with the planner entry points of `tasks.py` that the
controller calls.

Modelling conventions:
* Timestamps are abstract `Nat` instants passed explicitly to each operation
  (Python calls `datetime.now()` at the corresponding points); durations are
  `Int` seconds obtained by subtraction.
* A job store is the persisted map from job id to job record, modelled as an
  association list keyed by the id (Python keeps one JSON file per job plus a
  derived summary index; `get_job` reads the persisted record).
* Python `int` step indices are modelled as `Int`, and Python list subscripts
  follow Python semantics: a negative index `i` addresses position `len + i`,
  and a subscript outside `[-len, len)` raises `IndexError` (modelled as the
  `indexError` outcome).
* The step executor and the planner are external collaborators and enter the
  model as opaque function parameters; an executor failure is an
  `Except.error` carrying the exception text.
* Concurrent administrative status changes (pause/abort) can only be observed
  by the execution loop at step boundaries, where the source re-reads the job;
  they are modelled by an environment `env : Nat → Option JobStatus` applied
  through the store's own `update_job_status` right before the re-read of
  iteration `i`.  `env = fun _ => none` is the single-threaded run.
-/

/-- `JobStatus` from `jobs/job_manager.py`. -/
inductive JobStatus where
  | pending
  | planning
  | running
  | paused
  | completed
  | failed
  | aborted
deriving DecidableEq, Repr

/-- `StepStatus` from `jobs/job_manager.py`. -/
inductive StepStatus where
  | pending
  | running
  | completed
  | failed
deriving DecidableEq, Repr

/-- One step record, as built by `JobManager.set_job_plan` and mutated by
`start_step` / `complete_step`. -/
structure Step where
  index : Nat
  description : String
  status : StepStatus
  result : Option String
  started_at : Option Nat
  completed_at : Option Nat
  duration : Option Int
deriving DecidableEq, Repr

/-- An artifact record, as built by `JobManager.add_artifact`. -/
structure Artifact where
  type : String
  name : String
  path : String
  created_at : Nat
  metadata : List (String × String)
deriving DecidableEq, Repr

/-- A job record, as built by `JobManager.create_job`. -/
structure Job where
  id : String
  task : String
  status : JobStatus
  created_at : Nat
  updated_at : Nat
  plan : List String
  steps : List Step
  memory_context : List String
  artifacts : List Artifact
  metadata : List (String × String)
deriving DecidableEq, Repr

/-- Default step used with `List.getD`; arbitrary placeholder. -/
def defStep : Step :=
  { index := 0, description := "", status := .pending, result := none,
    started_at := none, completed_at := none, duration := none }

/-- Replace the element at position `k` (no-op when `k` is out of range),
mirroring an in-place mutation of `job_data['steps'][k]`. -/
def modifyIdx (f : α → α) : Nat → List α → List α
  | _, [] => []
  | 0, a :: as => f a :: as
  | n + 1, a :: as => a :: modifyIdx f n as

/-- Python's `enumerate` starting at `k`: pairs each element with its index. -/
def enumFrom (k : Nat) : List α → List (Nat × α)
  | [] => []
  | a :: as => (k, a) :: enumFrom (k + 1) as

/-- Python list subscript resolution for a list of length `len`: a
non-negative index must be `< len`, a negative index `i` addresses
`len + i`; anything else raises `IndexError` (`none`). -/
def pyIdx (len : Nat) (i : Int) : Option Nat :=
  if 0 ≤ i then (if i < (len : Int) then some i.toNat else none)
  else (if 0 ≤ i + (len : Int) then some (i + (len : Int)).toNat else none)

/-- Dictionary update `m[k] = v` on an association list. -/
def dictSet (m : List (String × String)) (k v : String) : List (String × String) :=
  if m.any (fun p => p.1 == k) then m.map (fun p => if p.1 == k then (k, v) else p)
  else m ++ [(k, v)]

/-- `step['status'] in [COMPLETED, FAILED]`. -/
def stepTerminal (st : Step) : Bool :=
  st.status == .completed || st.status == .failed

/-- The persisted job store: one record per job id. -/
abbrev Store := List (String × Job)

namespace JobManager

/-- `JobManager.get_job`: load the record for `id`, `none` when absent. -/
def get_job (s : Store) (id : String) : Option Job :=
  (s.find? (fun p => p.1 == id)).map (·.2)

/-- Write back the (existing) record for `id` — `JobManager._save_job` after a
read-modify-write of that job. -/
def storeSet (s : Store) (id : String) (j : Job) : Store :=
  s.map (fun p => if p.1 == id then (id, j) else p)

/-- The fresh record built by `JobManager.create_job`. -/
def mkJob (id task : String) (now : Nat) : Job :=
  { id := id, task := task, status := .pending, created_at := now,
    updated_at := now, plan := [], steps := [], memory_context := [],
    artifacts := [], metadata := [] }

/-- `JobManager.create_job` (the caller supplies the fresh uuid). -/
def create_job (s : Store) (id task : String) (now : Nat) : Store :=
  s ++ [(id, mkJob id task now)]

/-- `JobManager.update_job_status`. -/
def update_job_status (s : Store) (id : String) (st : JobStatus) (now : Nat) :
    Bool × Store :=
  match get_job s id with
  | none => (false, s)
  | some j => (true, storeSet s id { j with status := st, updated_at := now })

/-- The step record built for plan entry `(i, description)` in
`JobManager.set_job_plan`. -/
def mkPlanStep (p : Nat × String) : Step :=
  { index := p.1, description := p.2, status := .pending, result := none,
    started_at := none, completed_at := none, duration := none }

/-- `JobManager.set_job_plan`: overwrite the plan, rebuild all steps as
pending, set the job status to running. -/
def set_job_plan (s : Store) (id : String) (plan : List String) (now : Nat) :
    Bool × Store :=
  match get_job s id with
  | none => (false, s)
  | some j =>
      (true, storeSet s id
        { j with plan := plan, updated_at := now,
                 steps := (enumFrom 0 plan).map mkPlanStep,
                 status := .running })

/-- Outcome of `start_step` / `complete_step`: `failure` is Python's
`return False`, `indexError` an escaping `IndexError` from a negative
subscript below `-len`. -/
inductive StepOpResult where
  | success
  | failure
  | indexError
deriving DecidableEq, Repr

/-- `JobManager.start_step`.  Note the source guard is only
`step_index >= len(job_data['steps'])`; negative indices reach the subscript
and follow Python indexing. -/
def start_step (s : Store) (id : String) (i : Int) (now : Nat) :
    StepOpResult × Store :=
  match get_job s id with
  | none => (.failure, s)
  | some j =>
      if (j.steps.length : Int) ≤ i then (.failure, s)
      else
        match pyIdx j.steps.length i with
        | none => (.indexError, s)
        | some k =>
            (.success, storeSet s id
              { j with
                  steps := modifyIdx
                    (fun st => { st with status := .running, started_at := some now })
                    k j.steps,
                  updated_at := now })

/-- The status recomputation executed at the end of `complete_step`: assign a
terminal job status when every step is terminal (failed when any step
failed), otherwise leave the status alone. -/
def recompute (stat : JobStatus) (steps : List Step) : JobStatus :=
  if steps.all stepTerminal then
    (if steps.any (fun st => st.status == .failed) then .failed else .completed)
  else stat

/-- `JobManager.complete_step`: record result/completion/duration on the step,
then recompute the job status. -/
def complete_step (s : Store) (id : String) (i : Int) (result : String)
    (stat : StepStatus) (now : Nat) : StepOpResult × Store :=
  match get_job s id with
  | none => (.failure, s)
  | some j =>
      if (j.steps.length : Int) ≤ i then (.failure, s)
      else
        match pyIdx j.steps.length i with
        | none => (.indexError, s)
        | some k =>
            let steps' := modifyIdx
              (fun st =>
                { st with
                    status := stat, result := some result,
                    completed_at := some now,
                    duration := st.started_at.map (fun t0 : Nat => (now : Int) - (t0 : Int)) })
              k j.steps
            (.success, storeSet s id
              { j with steps := steps', updated_at := now,
                       status := recompute j.status steps' })

/-- `JobManager.add_artifact`. -/
def add_artifact (s : Store) (id ty name path : String)
    (meta : List (String × String)) (now : Nat) : Bool × Store :=
  match get_job s id with
  | none => (false, s)
  | some j =>
      (true, storeSet s id
        { j with
            artifacts := j.artifacts ++
              [{ type := ty, name := name, path := path, created_at := now,
                 metadata := meta }],
            updated_at := now })

/-- `JobManager.set_memory_context`. -/
def set_memory_context (s : Store) (id : String) (ctx : List String) (now : Nat) :
    Bool × Store :=
  match get_job s id with
  | none => (false, s)
  | some j => (true, storeSet s id { j with memory_context := ctx, updated_at := now })

/-- `JobManager.set_metadata`. -/
def set_metadata (s : Store) (id k v : String) (now : Nat) : Bool × Store :=
  match get_job s id with
  | none => (false, s)
  | some j =>
      (true, storeSet s id { j with metadata := dictSet j.metadata k v, updated_at := now })

/-- `JobManager.abort_job`. -/
def abort_job (s : Store) (id : String) (now : Nat) : Bool × Store :=
  update_job_status s id .aborted now

/-- `JobManager.pause_job`. -/
def pause_job (s : Store) (id : String) (now : Nat) : Bool × Store :=
  update_job_status s id .paused now

/-- `JobManager.resume_job` (store level: just sets status running). -/
def resume_job (s : Store) (id : String) (now : Nat) : Bool × Store :=
  update_job_status s id .running now

/-- `JobManager.delete_job`. -/
def delete_job (s : Store) (id : String) : Bool × Store :=
  match get_job s id with
  | none => (false, s)
  | some _ => (true, s.filter (fun p => !(p.1 == id)))

end JobManager

/-- One call to a mutating Job Store operation (return value discarded);
used to describe the states reachable through the store's public API. -/
inductive StoreOp where
  | createJobOp (id task : String) (now : Nat)
  | updateStatusOp (id : String) (st : JobStatus) (now : Nat)
  | setPlanOp (id : String) (plan : List String) (now : Nat)
  | startStepOp (id : String) (i : Int) (now : Nat)
  | completeStepOp (id : String) (i : Int) (result : String) (st : StepStatus) (now : Nat)
  | addArtifactOp (id ty name path : String) (meta : List (String × String)) (now : Nat)
  | setMemoryContextOp (id : String) (ctx : List String) (now : Nat)
  | setMetadataOp (id k v : String) (now : Nat)
  | pauseOp (id : String) (now : Nat)
  | resumeOp (id : String) (now : Nat)
  | abortOp (id : String) (now : Nat)
  | deleteOp (id : String)

/-- Whether the operation is `set_job_plan`. -/
def StoreOp.isSetPlan : StoreOp → Bool
  | .setPlanOp _ _ _ => true
  | _ => false

/-- Apply one store operation. -/
def applyOp (s : Store) : StoreOp → Store
  | .createJobOp id task now => JobManager.create_job s id task now
  | .updateStatusOp id st now => (JobManager.update_job_status s id st now).2
  | .setPlanOp id plan now => (JobManager.set_job_plan s id plan now).2
  | .startStepOp id i now => (JobManager.start_step s id i now).2
  | .completeStepOp id i r st now => (JobManager.complete_step s id i r st now).2
  | .addArtifactOp id ty name path meta now =>
      (JobManager.add_artifact s id ty name path meta now).2
  | .setMemoryContextOp id ctx now => (JobManager.set_memory_context s id ctx now).2
  | .setMetadataOp id k v now => (JobManager.set_metadata s id k v now).2
  | .pauseOp id now => (JobManager.pause_job s id now).2
  | .resumeOp id now => (JobManager.resume_job s id now).2
  | .abortOp id now => (JobManager.abort_job s id now).2
  | .deleteOp id => (JobManager.delete_job s id).2

/-- Apply a sequence of store operations in order. -/
def applyOps (s : Store) (ops : List StoreOp) : Store :=
  ops.foldl applyOp s

/-- A store state reachable from the empty store through the store's public
operations. -/
def reachable (s : Store) : Prop :=
  ∃ ops : List StoreOp, applyOps [] ops = s


namespace AgentRunner

open JobManager

/-- The result of one executor invocation (`TaskPlanner.execute_step`):
`ok` with the result string, or `error` with the exception text. -/
abbrev Exec := String → Except String String

/-- The environment of concurrent administrative calls: the status (if any)
written externally right before the loop re-reads the job at iteration `i`. -/
abbrev Env := Nat → Option JobStatus

/-- Apply the environment's administrative write for iteration `i` (a
concurrent `update_job_status`, e.g. pause/abort), if there is one. -/
def applyEnv (env : Env) (i : Nat) (id : String) (t : Nat) (s : Store) : Store :=
  match env i with
  | none => s
  | some st => (update_job_status s id st t).2

/-- The per-step execution loop shared by `AgentRunner.execute_task` (over the
enumerated plan) and `AgentRunner.resume_job` (over the remaining steps):
before each step re-read the job and stop when it is aborted or paused;
otherwise `start_step`, run the executor, and `complete_step` with the result
(completed) or the error text (failed), then continue with the next step.
`none` models the `TypeError` escaping when the re-read finds no job. -/
def execLoop (exec : Exec) (env : Env) (id : String) :
    List (Nat × String) → Nat → Store → Option Store
  | [], _, s => some s
  | (i, d) :: rest, t, s =>
      let s0 := applyEnv env i id t s
      match get_job s0 id with
      | none => none
      | some j =>
          if j.status == .aborted || j.status == .paused then some s0
          else
            let s1 := (start_step s0 id (i : Int) t).2
            match exec d with
            | .ok r =>
                execLoop exec env id rest (t + 2)
                  (complete_step s1 id (i : Int) r .completed (t + 1)).2
            | .error e =>
                execLoop exec env id rest (t + 2)
                  (complete_step s1 id (i : Int) ("Error executing step: " ++ e)
                    .failed (t + 1)).2

/-- `AgentRunner.execute_task`: create the job (with the fresh id `id`), set
status planning, attach the memory context when non-empty, store the plan the
planner produced (`plan`), then run the execution loop over the enumerated
plan.  Returns the final store (the source returns the job id). -/
def execute_task (exec : Exec) (env : Env) (plan : List String)
    (mem : List String) (s : Store) (id task : String) (t0 : Nat) :
    Option Store :=
  let s1 := create_job s id task t0
  let s2 := (update_job_status s1 id .planning t0).2
  let s3 := if mem.isEmpty then s2 else (set_memory_context s2 id mem t0).2
  let s4 := (set_job_plan s3 id plan t0).2
  execLoop exec env id (enumFrom 0 plan) (t0 + 1) s4

/-- `step['status'] in [PENDING, RUNNING]`. -/
def stepIncomplete (st : Step) : Bool :=
  st.status == .pending || st.status == .running

/-- Index of the first pending-or-running step (the scan of
`AgentRunner.resume_job`). -/
def findFirstIncomplete : List Step → Option Nat
  | [] => none
  | st :: rest =>
      if stepIncomplete st then some 0
      else (findFirstIncomplete rest).map (· + 1)

/-- Distinguishable outcomes of `AgentRunner.resume_job`: job not found
(returns False), status not resumable (returns False), resumed and ran the
loop (returns True), no pending/running step left (prints the
nothing-to-do message and returns False), or the loop crashed because the
job vanished mid-run (escaping exception). -/
inductive ResumeResult where
  | notFound
  | cannotResume
  | resumed
  | nothingToDo
  | crashed
deriving DecidableEq, Repr

/-- The Python return value of `AgentRunner.resume_job` for each outcome. -/
def ResumeResult.toBool : ResumeResult → Bool
  | .resumed => true
  | _ => false

/-- `AgentRunner.resume_job`: refuse unless the job exists with status paused
or running; set status running; scan the snapshot's steps for the first
pending-or-running one and re-run the loop from there over the snapshot's
descriptions; report nothing-to-do when there is none. -/
def resume_job (exec : Exec) (env : Env) (s : Store) (id : String) (t : Nat) :
    ResumeResult × Store :=
  match get_job s id with
  | none => (.notFound, s)
  | some j =>
      if j.status == .paused || j.status == .running then
        let s1 := (update_job_status s id .running t).2
        match findFirstIncomplete j.steps with
        | none => (.nothingToDo, s1)
        | some k =>
            match execLoop exec env id
                (enumFrom k ((j.steps.drop k).map (fun st => st.description)))
                (t + 1) s1 with
            | some s2 => (.resumed, s2)
            | none => (.crashed, s1)
      else (.cannotResume, s)

/-- `AgentRunner.retry_step`: refuse when the job is missing or the index is
out of `[0, len(steps))`; otherwise `start_step`, run the executor on that
step's description, and `complete_step` with the result (completed, returns
True) or the error text (failed, returns False). -/
def retry_step (exec : Exec) (s : Store) (id : String) (i : Int) (t : Nat) :
    Bool × Store :=
  match get_job s id with
  | none => (false, s)
  | some j =>
      if i < 0 || (j.steps.length : Int) ≤ i then (false, s)
      else
        let d := (j.steps.getD i.toNat defStep).description
        let s1 := (start_step s id i t).2
        match exec d with
        | .ok r => (true, (complete_step s1 id i r .completed (t + 1)).2)
        | .error e =>
            (false,
             (complete_step s1 id i ("Error executing step: " ++ e) .failed (t + 1)).2)

end AgentRunner

/-- `len(steps) == len(plan)` and `steps[i].description == plan[i]`. -/
def planMatch (j : Job) : Prop :=
  j.steps.length = j.plan.length ∧
  ∀ k, k < j.plan.length → (j.steps.getD k defStep).description = j.plan.getD k ""

instance decidablePlanMatch (j : Job) : Decidable (planMatch j) := by
  unfold planMatch; infer_instance

/-- The nullity pattern the spec asserts for every step (state-based part):
`result`, `completedAt`, `duration` non-null iff the step is terminal. -/
def resultNullityOk (st : Step) : Prop :=
  (st.result.isSome = true ↔ stepTerminal st = true) ∧
  (st.completed_at.isSome = true ↔ stepTerminal st = true) ∧
  (st.duration.isSome = true ↔ stepTerminal st = true)

instance decidableResultNullityOk (st : Step) : Decidable (resultNullityOk st) := by
  unfold resultNullityOk; infer_instance

/-- The nullity invariant that actually holds: on a terminal step, `result`
and `completedAt` are non-null and `duration` is non-null exactly when
`startedAt` is. -/
def durationInv (st : Step) : Prop :=
  stepTerminal st = true →
    st.result.isSome = true ∧ st.completed_at.isSome = true ∧
    st.duration.isSome = st.started_at.isSome

instance decidableDurationInv (st : Step) : Decidable (durationInv st) := by
  unfold durationInv; infer_instance

/-- `durationInv` for every step of every job in the store. -/
def storeInv (s : Store) : Prop :=
  ∀ pr ∈ s, ∀ st ∈ pr.2.steps, durationInv st

/-! ### Concrete stores used as witnesses -/

namespace Demo

open JobManager AgentRunner

/-- A pending step record for plan entry `(i, d)` (what `set_job_plan` builds). -/
def pstep (i : Nat) (d : String) : Step :=
  { index := i, description := d, status := .pending, result := none,
    started_at := none, completed_at := none, duration := none }

/-- The job `"j1"` after `create_job` at time 0 and `set_job_plan ["a", "b"]`
at time 1. -/
def jDemo : Job :=
  { id := "j1", task := "t", status := .running, created_at := 0, updated_at := 1,
    plan := ["a", "b"], steps := [pstep 0 "a", pstep 1 "b"],
    memory_context := [], artifacts := [], metadata := [] }

/-- Store holding exactly `jDemo`, built through the store's operations. -/
def sDemo : Store :=
  applyOps [] [.createJobOp "j1" "t" 0, .setPlanOp "j1" ["a", "b"] 1]

/-- `sDemo` after `complete_step` of step 0 (never started) at time 5. -/
def sW1 : Store := (complete_step sDemo "j1" 0 "r" .completed 5).2

/-- The job inside `sW1`. -/
def jW1 : Job :=
  { jDemo with
      updated_at := 5,
      steps := [{ index := 0, description := "a", status := .completed,
                  result := some "r", started_at := none, completed_at := some 5,
                  duration := none },
                pstep 1 "b"] }

/-- `sDemo` after `start_step` of step 0 at time 3. -/
def sWs : Store := (start_step sDemo "j1" 0 3).2

/-- The job inside `sWs`. -/
def jWs : Job :=
  { jDemo with
      updated_at := 3,
      steps := [{ index := 0, description := "a", status := .running,
                  result := none, started_at := some 3, completed_at := none,
                  duration := none },
                pstep 1 "b"] }


/-- An executor that always succeeds. -/
def exOk : Exec := fun d => .ok ("done " ++ d)

/-- An executor that always fails with exception text `"boom"`. -/
def exErr : Exec := fun _ => .error "boom"

/-- No concurrent administrative calls. -/
def envNone : Env := fun _ => none

/-- A concurrent pause before every iteration. -/
def envPause : Env := fun _ => some .paused

/-- `sDemo` after running step 0 to completion (times 2 and 3). -/
def sRet : Store :=
  applyOps [] [.createJobOp "j1" "t" 0, .setPlanOp "j1" ["a", "b"] 1,
    .startStepOp "j1" 0 2, .completeStepOp "j1" 0 "r0" .completed 3]

/-- The job inside `sRet`: step 0 already Completed, step 1 Pending. -/
def jRet : Job :=
  { id := "j1", task := "t", status := .running, created_at := 0, updated_at := 3,
    plan := ["a", "b"],
    steps := [{ index := 0, description := "a", status := .completed,
                result := some "r0", started_at := some 2, completed_at := some 3,
                duration := some 1 },
              pstep 1 "b"],
    memory_context := [], artifacts := [], metadata := [] }

end Demo

/-- The store reached by: plan two steps, complete step 0 without starting
it, run step 1 to completion, then start step 1 again (the `retry_step`
entry sequence). -/
def sBad : Store :=
  applyOps [] [.createJobOp "j1" "t" 0, .setPlanOp "j1" ["a", "b"] 1,
    .completeStepOp "j1" 0 "r" .completed 2,
    .startStepOp "j1" 1 3, .completeStepOp "j1" 1 "r1" .completed 4,
    .startStepOp "j1" 1 5]

/-- The job inside `sBad`: step 0 is Completed with null `duration` and null
`startedAt`; step 1 is Running with non-null `result`. -/
def jBad : Job :=
  { id := "j1", task := "t", status := .completed, created_at := 0, updated_at := 5,
    plan := ["a", "b"],
    steps := [{ index := 0, description := "a", status := .completed,
                result := some "r", started_at := none, completed_at := some 2,
                duration := none },
              { index := 1, description := "b", status := .running,
                result := some "r1", started_at := some 5, completed_at := some 4,
                duration := some 1 }],
    memory_context := [], artifacts := [], metadata := [] }

open JobManager AgentRunner Demo

/-! ### Basic lemmas about the list helpers -/

theorem length_modifyIdx (f : α → α) (k : Nat) (l : List α) :
    (modifyIdx f k l).length = l.length := by
  induction l generalizing k with
  | nil => cases k <;> rfl
  | cons a as ih => cases k <;> simp [modifyIdx, ih]

theorem getElem?_modifyIdx (f : α → α) (k m : Nat) (l : List α) :
    (modifyIdx f k l)[m]? = if m = k then (l[m]?).map f else l[m]? := by
  induction l generalizing k m with
  | nil => cases k <;> simp [modifyIdx]
  | cons a as ih =>
      cases k with
      | zero =>
          cases m with
          | zero => simp [modifyIdx]
          | succ m => simp [modifyIdx]
      | succ k =>
          cases m with
          | zero => simp [modifyIdx]
          | succ m => simpa [modifyIdx] using ih k m

theorem getD_modifyIdx_ne (f : α → α) (k m : Nat) (l : List α) (d : α)
    (h : m ≠ k) : (modifyIdx f k l).getD m d = l.getD m d := by
  simp [List.getD_eq_getElem?_getD, getElem?_modifyIdx, h]

theorem getD_modifyIdx_eq (f : α → α) (k : Nat) (l : List α) (d : α)
    (h : k < l.length) : (modifyIdx f k l).getD k d = f (l.getD k d) := by
  simp [List.getD_eq_getElem?_getD, getElem?_modifyIdx, List.getElem?_eq_getElem h]

theorem mem_modifyIdx {a : α} (f : α → α) :
    ∀ (k : Nat) (l : List α), a ∈ modifyIdx f k l → a ∈ l ∨ ∃ b ∈ l, a = f b := by
  intro k l
  induction l generalizing k with
  | nil => intro h; cases k <;> simp [modifyIdx] at h
  | cons x xs ih =>
      intro h
      cases k with
      | zero =>
          rw [show modifyIdx f 0 (x :: xs) = f x :: xs from rfl] at h
          rcases List.mem_cons.mp h with h | h
          · exact Or.inr ⟨x, List.mem_cons_self x xs, h⟩
          · exact Or.inl (List.mem_cons_of_mem x h)
      | succ k =>
          rw [show modifyIdx f (k + 1) (x :: xs) = x :: modifyIdx f k xs from rfl] at h
          rcases List.mem_cons.mp h with h | h
          · exact Or.inl (by simp [h])
          · rcases ih k h with h' | ⟨b, hb, hbe⟩
            · exact Or.inl (List.mem_cons_of_mem x h')
            · exact Or.inr ⟨b, List.mem_cons_of_mem x hb, hbe⟩

theorem length_enumFrom (k : Nat) (l : List α) :
    (enumFrom k l).length = l.length := by
  induction l generalizing k with
  | nil => rfl
  | cons a as ih => simp [enumFrom, ih]

theorem getElem?_enumFrom (k m : Nat) (l : List α) :
    (enumFrom k l)[m]? = (l[m]?).map (fun a => (k + m, a)) := by
  induction l generalizing k m with
  | nil => simp [enumFrom]
  | cons a as ih =>
      cases m with
      | zero => simp [enumFrom]
      | succ m =>
          simp only [enumFrom, List.getElem?_cons_succ, ih (k + 1) m]
          have : k + 1 + m = k + (m + 1) := by omega
          rw [this]

theorem fst_le_of_mem_enumFrom {p : Nat × α} :
    ∀ {k : Nat} {l : List α}, p ∈ enumFrom k l → k ≤ p.1 := by
  intro k l
  induction l generalizing k with
  | nil => intro h; simp [enumFrom] at h
  | cons a as ih =>
      intro h
      rw [show enumFrom k (a :: as) = (k, a) :: enumFrom (k + 1) as from rfl] at h
      rcases List.mem_cons.mp h with h | h
      · simp [h]
      · exact Nat.le_of_succ_le (ih h)

theorem pyIdx_nonneg {i : Int} (len : Nat) (h0 : 0 ≤ i) (h1 : i < (len : Int)) :
    pyIdx len i = some i.toNat := by
  simp [pyIdx, h0, h1]

theorem pyIdx_neg {i : Int} (len : Nat) (h0 : i < 0) (h1 : 0 ≤ i + (len : Int)) :
    pyIdx len i = some (i + (len : Int)).toNat := by
  simp [pyIdx, Int.not_le.mpr h0, h1]

theorem pyIdx_oob {i : Int} (len : Nat) (h0 : i < 0) (h1 : i + (len : Int) < 0) :
    pyIdx len i = none := by
  simp [pyIdx, Int.not_le.mpr h0, Int.not_le.mpr h1]

/-! ### Basic lemmas about `get_job` and `storeSet` -/

namespace JobManager

theorem get_job_nil (id : String) : get_job [] id = none := rfl

theorem get_job_cons (p : String × Job) (s : Store) (id : String) :
    get_job (p :: s) id = if p.1 == id then some p.2 else get_job s id := by
  by_cases h : (p.1 == id) = true
  · simp [get_job, List.find?_cons_of_pos _ h, h]
  · simp [get_job, List.find?_cons_of_neg _ h, h]

theorem get_job_mem {s : Store} {id : String} {j : Job}
    (h : get_job s id = some j) : ∃ key, (key, j) ∈ s := by
  unfold get_job at h
  cases hf : s.find? (fun p => p.1 == id) with
  | none => rw [hf] at h; simp at h
  | some p =>
      rw [hf] at h
      obtain ⟨k, v⟩ := p
      have hm := List.mem_of_find?_eq_some hf
      simp at h
      subst h
      exact ⟨k, hm⟩

theorem storeSet_cons (p : String × Job) (s : Store) (id : String) (j : Job) :
    storeSet (p :: s) id j = (if p.1 == id then (id, j) else p) :: storeSet s id j := rfl

theorem storeSet_of_get_job_none {s : Store} {id : String} (j : Job)
    (h : get_job s id = none) : storeSet s id j = s := by
  induction s with
  | nil => rfl
  | cons p ps ih =>
      rw [get_job_cons] at h
      by_cases hp : (p.1 == id) = true
      · rw [if_pos hp] at h; simp at h
      · rw [if_neg hp] at h
        rw [storeSet_cons, if_neg hp, ih h]

theorem get_job_storeSet_self {s : Store} {id : String} (j : Job)
    (h : (get_job s id).isSome = true) :
    get_job (storeSet s id j) id = some j := by
  induction s with
  | nil => simp [get_job] at h
  | cons p ps ih =>
      rw [get_job_cons] at h
      by_cases hp : (p.1 == id) = true
      · rw [storeSet_cons, if_pos hp, get_job_cons]
        simp
      · rw [if_neg hp] at h
        rw [storeSet_cons, if_neg hp, get_job_cons, if_neg hp]
        exact ih h

theorem get_job_storeSet_ne {s : Store} {id id' : String} (j : Job)
    (h : id ≠ id') : get_job (storeSet s id' j) id = get_job s id := by
  induction s with
  | nil => rfl
  | cons p ps ih =>
      by_cases hp : (p.1 == id') = true
      · rw [storeSet_cons, if_pos hp, get_job_cons, get_job_cons]
        have h1 : (id' == id) = false := by
          simp only [beq_eq_false_iff_ne, ne_eq]
          exact fun hh => h hh.symm
        have h2 : (p.1 == id) = false := by
          have he : p.1 = id' := by simpa [beq_iff_eq] using hp
          simp only [beq_eq_false_iff_ne, ne_eq, he]
          exact fun hh => h hh.symm
        rw [show ((id', j).1 == id) = false from h1, show (p.1 == id) = false from h2]
        simpa using ih
      · rw [storeSet_cons, if_neg hp, get_job_cons, get_job_cons]
        exact if_congr Iff.rfl rfl ih

theorem isSome_get_job_storeSet (s : Store) (id id' : String) (j : Job) :
    (get_job (storeSet s id' j) id).isSome = (get_job s id).isSome := by
  by_cases h : id = id'
  · subst h
    cases hs : get_job s id with
    | none => rw [storeSet_of_get_job_none j hs, hs]
    | some j0 => rw [get_job_storeSet_self j (by simp [hs])]; rfl
  · rw [get_job_storeSet_ne j h]


/-! ### Per-operation lemmas: presence of records, and record shape -/

theorem isSome_get_job_create_self (s : Store) (id task : String) (now : Nat) :
    (get_job (create_job s id task now) id).isSome = true := by
  unfold create_job get_job
  rw [List.find?_append]
  cases hf : s.find? (fun p => p.1 == id) with
  | none => simp
  | some p => simp

theorem isSome_get_job_create (s : Store) (id' task : String) (now : Nat) (id : String)
    (h : (get_job s id).isSome = true) :
    (get_job (create_job s id' task now) id).isSome = true := by
  unfold create_job get_job
  rw [List.find?_append]
  unfold get_job at h
  cases hf : s.find? (fun p => p.1 == id) with
  | none => rw [hf] at h; simp at h
  | some p => simp

theorem isSome_update_job_status (s : Store) (id' : String) (st : JobStatus)
    (now : Nat) (id : String) :
    (get_job (update_job_status s id' st now).2 id).isSome = (get_job s id).isSome := by
  unfold update_job_status
  cases hj : get_job s id' with
  | none => rfl
  | some j => exact isSome_get_job_storeSet ..

theorem isSome_set_job_plan (s : Store) (id' : String) (plan : List String)
    (now : Nat) (id : String) :
    (get_job (set_job_plan s id' plan now).2 id).isSome = (get_job s id).isSome := by
  unfold set_job_plan
  cases hj : get_job s id' with
  | none => rfl
  | some j => exact isSome_get_job_storeSet ..

theorem isSome_set_memory_context (s : Store) (id' : String) (ctx : List String)
    (now : Nat) (id : String) :
    (get_job (set_memory_context s id' ctx now).2 id).isSome = (get_job s id).isSome := by
  unfold set_memory_context
  cases hj : get_job s id' with
  | none => rfl
  | some j => exact isSome_get_job_storeSet ..

theorem isSome_start_step (s : Store) (id' : String) (i : Int) (now : Nat) (id : String) :
    (get_job (start_step s id' i now).2 id).isSome = (get_job s id).isSome := by
  cases hj : get_job s id' with
  | none => simp [start_step, hj]
  | some j =>
      by_cases hle : (j.steps.length : Int) ≤ i
      · simp [start_step, hj, hle]
      · cases hp : pyIdx j.steps.length i with
        | none => simp [start_step, hj, hle, hp]
        | some k => simp [start_step, hj, hle, hp, isSome_get_job_storeSet]

theorem isSome_complete_step (s : Store) (id' : String) (i : Int) (r : String)
    (stat : StepStatus) (now : Nat) (id : String) :
    (get_job (complete_step s id' i r stat now).2 id).isSome = (get_job s id).isSome := by
  cases hj : get_job s id' with
  | none => simp [complete_step, hj]
  | some j =>
      by_cases hle : (j.steps.length : Int) ≤ i
      · simp [complete_step, hj, hle]
      · cases hp : pyIdx j.steps.length i with
        | none => simp [complete_step, hj, hle, hp]
        | some k => simp [complete_step, hj, hle, hp, isSome_get_job_storeSet]

theorem get_job_update_self {s : Store} {id : String} {j : Job}
    (st : JobStatus) (now : Nat) (hj : get_job s id = some j) :
    get_job (update_job_status s id st now).2 id =
      some { j with status := st, updated_at := now } := by
  unfold update_job_status
  rw [hj]
  exact get_job_storeSet_self _ (by simp [hj])

/-- Both `start_step` and `complete_step` on a job, at a non-negative
in-range index, produce exactly one updated step; this is the shared
`start_step` → executor → `complete_step` path of the execution loop,
`resume_job` and `retry_step`. -/
theorem step_exec_spec (s : Store) (id : String) (j : Job) (i : Int) (r : String)
    (stat : StepStatus) (t : Nat)
    (hj : get_job s id = some j) (h0 : 0 ≤ i) (hi : i < (j.steps.length : Int)) :
    ∃ j', get_job (complete_step (start_step s id i t).2 id i r stat (t + 1)).2 id = some j' ∧
      j'.plan = j.plan ∧
      j'.steps.length = j.steps.length ∧
      (∀ m, m ≠ i.toNat → j'.steps.getD m defStep = j.steps.getD m defStep) ∧
      j'.steps.getD i.toNat defStep =
        { j.steps.getD i.toNat defStep with
            status := stat, result := some r, started_at := some t,
            completed_at := some (t + 1), duration := some 1 } ∧
      j'.status = recompute j.status j'.steps := by
  have hiN : i.toNat < j.steps.length := (Int.toNat_lt h0).mpr hi
  have hnle : ¬((j.steps.length : Int) ≤ i) := not_le.mpr hi
  have hstart : (start_step s id i t).2 =
      storeSet s id
        { j with
            steps := modifyIdx
              (fun st => { st with status := .running, started_at := some t })
              i.toNat j.steps,
            updated_at := t } := by
    simp only [start_step, hj, if_neg hnle, pyIdx_nonneg _ h0 hi]
  have hg1 : get_job (start_step s id i t).2 id =
      some { j with
               steps := modifyIdx
                 (fun st => { st with status := .running, started_at := some t })
                 i.toNat j.steps,
               updated_at := t } := by
    rw [hstart]
    exact get_job_storeSet_self _ (by simp [hj])
  have hlen1 : (modifyIdx
      (fun st => { st with status := StepStatus.running, started_at := some t })
      i.toNat j.steps).length = j.steps.length := length_modifyIdx ..
  have hn2 : ¬(((modifyIdx
      (fun st => { st with status := StepStatus.running, started_at := some t })
      i.toNat j.steps).length : Int) ≤ i) := by rw [hlen1]; exact hnle
  have hp2 : pyIdx (modifyIdx
      (fun st => { st with status := StepStatus.running, started_at := some t })
      i.toNat j.steps).length i = some i.toNat := by
    rw [hlen1]; exact pyIdx_nonneg _ h0 hi
  have hcomp : (complete_step (start_step s id i t).2 id i r stat (t + 1)).2 =
      storeSet (start_step s id i t).2 id
        { j with
            steps := modifyIdx
              (fun st => { st with
                  status := stat, result := some r, completed_at := some (t + 1),
                  duration := st.started_at.map (fun t0 : Nat => ((t + 1 : Nat) : Int) - (t0 : Int)) })
              i.toNat
              (modifyIdx
                (fun st => { st with status := .running, started_at := some t })
                i.toNat j.steps),
            updated_at := t + 1,
            status := recompute j.status
              (modifyIdx
                (fun st => { st with
                    status := stat, result := some r, completed_at := some (t + 1),
                    duration := st.started_at.map (fun t0 : Nat => ((t + 1 : Nat) : Int) - (t0 : Int)) })
                i.toNat
                (modifyIdx
                  (fun st => { st with status := .running, started_at := some t })
                  i.toNat j.steps)) } := by
    simp only [complete_step, hg1, if_neg hn2, hp2]
  refine ⟨{ j with
      steps := modifyIdx
        (fun st => { st with
            status := stat, result := some r, completed_at := some (t + 1),
            duration := st.started_at.map (fun t0 : Nat => ((t + 1 : Nat) : Int) - (t0 : Int)) })
        i.toNat
        (modifyIdx
          (fun st => { st with status := .running, started_at := some t })
          i.toNat j.steps),
      updated_at := t + 1,
      status := recompute j.status
        (modifyIdx
          (fun st => { st with
              status := stat, result := some r, completed_at := some (t + 1),
              duration := st.started_at.map (fun t0 : Nat => ((t + 1 : Nat) : Int) - (t0 : Int)) })
          i.toNat
          (modifyIdx
            (fun st => { st with status := .running, started_at := some t })
            i.toNat j.steps)) }, ?_, rfl, ?_, ?_, ?_, rfl⟩
  · rw [hcomp]
    exact get_job_storeSet_self _ (by rw [hg1]; rfl)
  · dsimp only
    rw [length_modifyIdx, length_modifyIdx]
  · intro m hm
    dsimp only
    rw [getD_modifyIdx_ne _ _ _ _ _ hm, getD_modifyIdx_ne _ _ _ _ _ hm]
  · have hdur : ((t + 1 : Nat) : Int) - ((t : Nat) : Int) = 1 := by push_cast; ring
    dsimp only
    rw [getD_modifyIdx_eq _ _ _ _ (by rw [hlen1]; exact hiN),
        getD_modifyIdx_eq _ _ _ _ hiN]
    simp [hdur]

/-- Out-of-range (`len ≤ i`) `start_step`+`complete_step` leave the store
unchanged. -/
theorem step_exec_oob {s : Store} {id : String} {j : Job} {i : Int}
    (r : String) (stat : StepStatus) (t : Nat)
    (hj : get_job s id = some j) (hi : (j.steps.length : Int) ≤ i) :
    (complete_step (start_step s id i t).2 id i r stat (t + 1)).2 = s := by
  have h1 : (start_step s id i t).2 = s := by
    simp only [start_step, hj, if_pos hi]
  rw [h1]
  simp only [complete_step, hj, if_pos hi]

/-- One `start_step`+`complete_step` at natural index `i` never touches any
other step and preserves the number of steps (whether or not `i` is in
range). -/
theorem step_exec_frame {s : Store} {id : String} {j : Job}
    (i : Nat) (r : String) (stat : StepStatus) (t : Nat)
    (hj : get_job s id = some j) :
    ∃ j2, get_job (complete_step (start_step s id (i : Int) t).2 id (i : Int) r stat (t + 1)).2 id = some j2 ∧
      j2.steps.length = j.steps.length ∧
      j2.plan = j.plan ∧
      ∀ m, m ≠ i → j2.steps.getD m defStep = j.steps.getD m defStep := by
  by_cases hi : i < j.steps.length
  · obtain ⟨j2, hg, hplan, hlen, hfr, _, _⟩ :=
      step_exec_spec s id j (i : Int) r stat t hj (Int.natCast_nonneg i)
        (by exact_mod_cast hi)
    refine ⟨j2, hg, hlen, hplan, ?_⟩
    intro m hm
    exact hfr m (by simpa using hm)
  · have hle : (j.steps.length : Int) ≤ (i : Int) := by
      exact_mod_cast Nat.le_of_not_lt hi
    rw [step_exec_oob r stat t hj hle]
    exact ⟨j, hj, rfl, rfl, fun _ _ => rfl⟩

end JobManager

namespace AgentRunner

/-! ### Lemmas about the execution loop -/

theorem isSome_applyEnv (env : Env) (i : Nat) (id' : String) (t : Nat)
    (s : Store) (id : String) :
    (get_job (applyEnv env i id' t s) id).isSome = (get_job s id).isSome := by
  cases he : env i with
  | none => simp [applyEnv, he]
  | some st => simp [applyEnv, he, isSome_update_job_status]

theorem applyEnv_spec {s : Store} {id : String} {j : Job}
    (env : Env) (i t : Nat) (hj : get_job s id = some j) :
    ∃ j', get_job (applyEnv env i id t s) id = some j' ∧
      j'.steps = j.steps ∧ j'.plan = j.plan ∧ j'.status = (env i).getD j.status := by
  cases he : env i with
  | none => exact ⟨j, by simp [applyEnv, he, hj], rfl, rfl, by simp⟩
  | some st =>
      refine ⟨{ j with status := st, updated_at := t }, ?_, rfl, rfl, by simp⟩
      simp only [applyEnv, he]
      exact get_job_update_self st t hj

/-- The execution loop never raises: as long as the job is present it
returns a final store (the executor's failures are absorbed per step). -/
theorem execLoop_isSome (exec : Exec) (env : Env) (id : String) :
    ∀ (l : List (Nat × String)) (t : Nat) (s : Store),
      (get_job s id).isSome = true → (execLoop exec env id l t s).isSome = true := by
  intro l
  induction l with
  | nil => intro t s h; simp [execLoop]
  | cons p rest ih =>
      intro t s h
      obtain ⟨i, d⟩ := p
      have h0 : (get_job (applyEnv env i id t s) id).isSome = true := by
        rw [isSome_applyEnv]; exact h
      cases hg : get_job (applyEnv env i id t s) id with
      | none => rw [hg] at h0; simp at h0
      | some j =>
          simp only [execLoop, hg]
          by_cases hst : (j.status == JobStatus.aborted || j.status == JobStatus.paused) = true
          · rw [if_pos hst]; rfl
          · rw [if_neg hst]
            cases hex : exec d with
            | ok r =>
                apply ih
                rw [isSome_complete_step, isSome_start_step, hg]
                rfl
            | error e =>
                apply ih
                rw [isSome_complete_step, isSome_start_step, hg]
                rfl

/-- The execution loop over indices `≥ k` never changes any step below
index `k`, and preserves the number of steps and the plan. -/
theorem execLoop_frame (exec : Exec) (env : Env) (id : String) (k : Nat) :
    ∀ (l : List (Nat × String)) (t : Nat) (s s' : Store),
      (∀ p ∈ l, k ≤ p.1) →
      execLoop exec env id l t s = some s' →
      ∀ j, get_job s id = some j →
      ∃ j', get_job s' id = some j' ∧
        j'.steps.length = j.steps.length ∧
        j'.plan = j.plan ∧
        ∀ m, m < k → j'.steps.getD m defStep = j.steps.getD m defStep := by
  intro l
  induction l with
  | nil =>
      intro t s s' _ hrun j hj
      simp only [execLoop, Option.some.injEq] at hrun
      subst hrun
      exact ⟨j, hj, rfl, rfl, fun _ _ => rfl⟩
  | cons p rest ih =>
      intro t s s' hk hrun j hj
      obtain ⟨i, d⟩ := p
      have hki : k ≤ i := hk (i, d) (List.mem_cons_self _ _)
      have hkr : ∀ q ∈ rest, k ≤ q.1 := fun q hq => hk q (List.mem_cons_of_mem _ hq)
      obtain ⟨j0, hg0, hsteps0, hplan0, _⟩ := applyEnv_spec env i t hj
      simp only [execLoop, hg0] at hrun
      by_cases hst : (j0.status == JobStatus.aborted || j0.status == JobStatus.paused) = true
      · rw [if_pos hst, Option.some.injEq] at hrun
        subst hrun
        exact ⟨j0, hg0, by rw [hsteps0], hplan0, fun m _ => by rw [hsteps0]⟩
      · rw [if_neg hst] at hrun
        cases hex : exec d with
        | ok r =>
            rw [hex] at hrun
            obtain ⟨j2, hg2, hlen2, hplan2, hfr2⟩ :=
              step_exec_frame i r .completed t hg0
            obtain ⟨j', hg', hlen', hplan', hfr'⟩ := ih (t + 2) _ s' hkr hrun j2 hg2
            refine ⟨j', hg', by rw [hlen', hlen2, hsteps0],
              by rw [hplan', hplan2, hplan0], ?_⟩
            intro m hm
            rw [hfr' m hm, hfr2 m (by omega), hsteps0]
        | error e =>
            rw [hex] at hrun
            obtain ⟨j2, hg2, hlen2, hplan2, hfr2⟩ :=
              step_exec_frame i ("Error executing step: " ++ e) .failed t hg0
            obtain ⟨j', hg', hlen', hplan', hfr'⟩ := ih (t + 2) _ s' hkr hrun j2 hg2
            refine ⟨j', hg', by rw [hlen', hlen2, hsteps0],
              by rw [hplan', hplan2, hplan0], ?_⟩
            intro m hm
            rw [hfr' m hm, hfr2 m (by omega), hsteps0]

end AgentRunner


/-! ### Claim theorems -/


/-- The recomputation rule of `complete_step` is idempotent. -/
theorem recompute_idem (stat : JobStatus) (steps : List Step) :
    recompute (recompute stat steps) steps = recompute stat steps := by
  by_cases h : steps.all stepTerminal <;> simp [recompute, h]

/-- C1: after every `complete_step` on an existing job with a valid step
index, the job status is recomputed: when every step is terminal the job
status becomes Failed iff some step is Failed and Completed otherwise; when
some step is non-terminal the job status is left unchanged; starting from a
non-terminal job status, the new status is terminal iff every step is
terminal; the recomputation is idempotent; and `start_step` never changes
the job's status field. -/
theorem C1_status_recompute :
    (∀ (s : Store) (id : String) (i : Int) (r : String) (stat : StepStatus)
        (now : Nat) (s' : Store) (j j' : Job),
        get_job s id = some j →
        complete_step s id i r stat now = (.success, s') →
        get_job s' id = some j' →
        (j'.steps.all stepTerminal = true →
           j'.status = (if j'.steps.any (fun st => st.status == .failed)
                        then JobStatus.failed else JobStatus.completed)) ∧
        (j'.steps.all stepTerminal = false → j'.status = j.status) ∧
        (j.status ≠ .completed → j.status ≠ .failed →
           ((j'.status = .completed ∨ j'.status = .failed) ↔
             j'.steps.all stepTerminal = true)) ∧
        recompute j'.status j'.steps = j'.status) ∧
    (∀ (stat : JobStatus) (steps : List Step),
        recompute (recompute stat steps) steps = recompute stat steps) ∧
    (∀ (s : Store) (id : String) (i : Int) (now : Nat) (s' : Store) (j j' : Job),
        get_job s id = some j →
        start_step s id i now = (.success, s') →
        get_job s' id = some j' →
        j'.status = j.status) := by
  refine ⟨?_, recompute_idem, ?_⟩
  · intro s id i r stat now s' j j' hj hc hj'
    simp only [complete_step, hj] at hc
    by_cases hle : (j.steps.length : Int) ≤ i
    · rw [if_pos hle] at hc; simp at hc
    · rw [if_neg hle] at hc
      cases hp : pyIdx j.steps.length i with
      | none => rw [hp] at hc; simp at hc
      | some k =>
          rw [hp] at hc
          simp only [Prod.mk.injEq, true_and] at hc
          subst hc
          rw [get_job_storeSet_self _ (by simp [hj])] at hj'
          obtain rfl : _ = j' := Option.some_injective _ hj'
          refine ⟨?_, ?_, ?_, recompute_idem ..⟩
          · intro hall
            simp only [recompute, hall, if_true]
          · intro hall
            simp only [recompute, hall, Bool.false_eq_true, if_false]
          · intro hnc hnf
            constructor
            · intro hterm
              by_cases hall : (modifyIdx
                  (fun st => { st with
                      status := stat, result := some r, completed_at := some now,
                      duration := st.started_at.map
                        (fun t0 : Nat => (now : Int) - (t0 : Int)) })
                  k j.steps).all stepTerminal
              · exact hall
              · exfalso
                simp only [recompute, hall, Bool.false_eq_true, if_false] at hterm
                rcases hterm with h | h
                · exact hnc h
                · exact hnf h
            · intro hall
              simp only [recompute, hall, if_true]
              by_cases hany : (modifyIdx
                  (fun st => { st with
                      status := stat, result := some r, completed_at := some now,
                      duration := st.started_at.map
                        (fun t0 : Nat => (now : Int) - (t0 : Int)) })
                  k j.steps).any (fun st => st.status == .failed)
              · simp [hany]
              · simp [hany]
  · intro s id i now s' j j' hj hc hj'
    simp only [start_step, hj] at hc
    by_cases hle : (j.steps.length : Int) ≤ i
    · rw [if_pos hle] at hc; simp at hc
    · rw [if_neg hle] at hc
      cases hp : pyIdx j.steps.length i with
      | none => rw [hp] at hc; simp at hc
      | some k =>
          rw [hp] at hc
          simp only [Prod.mk.injEq, true_and] at hc
          subst hc
          rw [get_job_storeSet_self _ (by simp [hj])] at hj'
          obtain rfl : _ = j' := Option.some_injective _ hj'
          rfl

/-- Witness for C1 at a concrete two-step job: completing step 0 leaves the
job status unchanged (step 1 is still pending), recomputation is idempotent
on the result, and starting step 0 leaves the job status unchanged. -/
theorem C1_status_recompute_witness :
    ((jW1.steps.all stepTerminal = false → jW1.status = jDemo.status) ∧
      recompute jW1.status jW1.steps = jW1.status) ∧
    jWs.status = jDemo.status :=
  ⟨⟨(C1_status_recompute.1 sDemo "j1" 0 "r" .completed 5 sW1 jDemo jW1
      (by decide) (by decide) (by decide)).2.1,
    (C1_status_recompute.1 sDemo "j1" 0 "r" .completed 5 sW1 jDemo jW1
      (by decide) (by decide) (by decide)).2.2.2⟩,
    C1_status_recompute.2.2 sDemo "j1" 0 3 sWs jDemo jWs
      (by decide) (by decide) (by decide)⟩

/-- C9 counterexample: on a one-step job, index `-1` is outside `[0, 1)` yet
`start_step` and `complete_step` both succeed and mutate the job (Python's
negative indexing wraps to the last step), instead of failing and leaving
the record unchanged. -/
theorem C9_counterexample :
    ¬(0 ≤ (-1 : Int) ∧ (-1 : Int) < (jDemo.steps.length : Int)) ∧
    (start_step sDemo "j1" (-1) 5).1 = .success ∧
    (start_step sDemo "j1" (-1) 5).2 ≠ sDemo ∧
    ((get_job (start_step sDemo "j1" (-1) 5).2 "j1").map
      (fun j => (j.steps.getD 1 defStep).status)) = some .running ∧
    (complete_step sDemo "j1" (-1) "r" .completed 5).1 = .success ∧
    (complete_step sDemo "j1" (-1) "r" .completed 5).2 ≠ sDemo := by
  decide

/-- C9 amended: `start_step` and `complete_step` return failure and leave the
store unchanged exactly when the job is missing or `len(steps) ≤ i`; a
negative index `i` with `i + len < 0` raises IndexError (store unchanged);
a negative index with `0 ≤ i + len` is accepted and mutates step `len + i`;
a non-negative in-range index is accepted. -/
theorem C9_amended :
    (∀ (s : Store) (id : String) (i : Int) (now : Nat), get_job s id = none →
        start_step s id i now = (.failure, s)) ∧
    (∀ (s : Store) (id : String) (i : Int) (r : String) (stat : StepStatus)
        (now : Nat), get_job s id = none →
        complete_step s id i r stat now = (.failure, s)) ∧
    (∀ (s : Store) (id : String) (i : Int) (now : Nat) (j : Job),
        get_job s id = some j → (j.steps.length : Int) ≤ i →
        start_step s id i now = (.failure, s)) ∧
    (∀ (s : Store) (id : String) (i : Int) (r : String) (stat : StepStatus)
        (now : Nat) (j : Job),
        get_job s id = some j → (j.steps.length : Int) ≤ i →
        complete_step s id i r stat now = (.failure, s)) ∧
    (∀ (s : Store) (id : String) (i : Int) (now : Nat) (j : Job),
        get_job s id = some j → i + (j.steps.length : Int) < 0 →
        start_step s id i now = (.indexError, s)) ∧
    (∀ (s : Store) (id : String) (i : Int) (r : String) (stat : StepStatus)
        (now : Nat) (j : Job),
        get_job s id = some j → i + (j.steps.length : Int) < 0 →
        complete_step s id i r stat now = (.indexError, s)) ∧
    (∀ (s : Store) (id : String) (i : Int) (now : Nat) (j : Job),
        get_job s id = some j → i < 0 → 0 ≤ i + (j.steps.length : Int) →
        (start_step s id i now).1 = .success ∧
        ∃ j', get_job (start_step s id i now).2 id = some j' ∧
          (j'.steps.getD (i + (j.steps.length : Int)).toNat defStep).status = .running ∧
          (j'.steps.getD (i + (j.steps.length : Int)).toNat defStep).started_at = some now) ∧
    (∀ (s : Store) (id : String) (i : Int) (now : Nat) (j : Job),
        get_job s id = some j → 0 ≤ i → i < (j.steps.length : Int) →
        (start_step s id i now).1 = .success) := by
  refine ⟨?_, ?_, ?_, ?_, ?_, ?_, ?_, ?_⟩
  · intro s id i now h; simp [start_step, h]
  · intro s id i r stat now h; simp [complete_step, h]
  · intro s id i now j hj hle; simp [start_step, hj, hle]
  · intro s id i r stat now j hj hle; simp [complete_step, hj, hle]
  · intro s id i now j hj hn
    have hneg : i < 0 := by omega
    have hle : ¬((j.steps.length : Int) ≤ i) := by omega
    simp [start_step, hj, hle, pyIdx_oob _ hneg hn]
  · intro s id i r stat now j hj hn
    have hneg : i < 0 := by omega
    have hle : ¬((j.steps.length : Int) ≤ i) := by omega
    simp [complete_step, hj, hle, pyIdx_oob _ hneg hn]
  · intro s id i now j hj hneg hnn
    have hle : ¬((j.steps.length : Int) ≤ i) := by omega
    have hkl : (i + (j.steps.length : Int)).toNat < j.steps.length := by
      rw [Int.toNat_lt hnn]; omega
    refine ⟨by simp [start_step, hj, hle, pyIdx_neg _ hneg hnn], ?_⟩
    refine ⟨{ j with
        steps := modifyIdx
          (fun st => { st with status := .running, started_at := some now })
          (i + (j.steps.length : Int)).toNat j.steps,
        updated_at := now }, ?_, ?_, ?_⟩
    · have hset : (start_step s id i now).2 = storeSet s id
          { j with
              steps := modifyIdx
                (fun st => { st with status := .running, started_at := some now })
                (i + (j.steps.length : Int)).toNat j.steps,
              updated_at := now } := by
        simp only [start_step, hj, if_neg hle, pyIdx_neg _ hneg hnn]
      rw [hset]
      exact get_job_storeSet_self _ (by simp [hj])
    · dsimp only
      rw [getD_modifyIdx_eq _ _ _ _ hkl]
    · dsimp only
      rw [getD_modifyIdx_eq _ _ _ _ hkl]
  · intro s id i now j hj h0 hi
    simp [start_step, hj, not_le.mpr hi, pyIdx_nonneg _ h0 hi]

/-- Witness for C9 amended at concrete inputs: a missing job id fails, an
index past the end fails, index `-3` on a two-step job raises, index `-1`
succeeds and mutates step 1, and index `0` succeeds. -/
theorem C9_amended_witness :
    start_step sDemo "nope" 0 5 = (.failure, sDemo) ∧
    start_step sDemo "j1" 2 5 = (.failure, sDemo) ∧
    start_step sDemo "j1" (-3) 5 = (.indexError, sDemo) ∧
    (start_step sDemo "j1" (-1) 5).1 = .success ∧
    (start_step sDemo "j1" 0 5).1 = .success :=
  ⟨C9_amended.1 sDemo "nope" 0 5 (by decide),
   C9_amended.2.2.1 sDemo "j1" 2 5 jDemo (by decide) (by decide),
   C9_amended.2.2.2.2.1 sDemo "j1" (-3) 5 jDemo (by decide) (by decide),
   (C9_amended.2.2.2.2.2.2.1 sDemo "j1" (-1) 5 jDemo (by decide) (by decide)
     (by decide)).1,
   C9_amended.2.2.2.2.2.2.2 sDemo "j1" 0 5 jDemo (by decide) (by decide)
     (by decide)⟩

/-- C10: the Job Store enforces no job state machine: for any existing job,
whatever its current status (including terminal ones), `update_job_status`
succeeds and sets the requested status, and the store-level
`pause_job`/`resume_job`/`abort_job` succeed unconditionally. -/
theorem C10_no_state_machine (s : Store) (id : String) (st : JobStatus)
    (now : Nat) (j : Job) (hj : get_job s id = some j) :
    (update_job_status s id st now).1 = true ∧
    get_job (update_job_status s id st now).2 id =
      some { j with status := st, updated_at := now } ∧
    (pause_job s id now).1 = true ∧
    get_job (pause_job s id now).2 id =
      some { j with status := .paused, updated_at := now } ∧
    (JobManager.resume_job s id now).1 = true ∧
    get_job (JobManager.resume_job s id now).2 id =
      some { j with status := .running, updated_at := now } ∧
    (abort_job s id now).1 = true ∧
    get_job (abort_job s id now).2 id =
      some { j with status := .aborted, updated_at := now } := by
  refine ⟨?_, get_job_update_self st now hj, ?_, get_job_update_self _ now hj,
    ?_, get_job_update_self _ now hj, ?_, get_job_update_self _ now hj⟩ <;>
    simp [update_job_status, pause_job, JobManager.resume_job, abort_job, hj]

/-- Witness for C10: a Completed job is set back to Running through the
store's public API. -/
theorem C10_no_state_machine_witness :
    (update_job_status [("j1", { jDemo with status := .completed })] "j1"
      JobStatus.running 7).1 = true ∧
    get_job (update_job_status [("j1", { jDemo with status := .completed })] "j1"
      JobStatus.running 7).2 "j1" =
      some { jDemo with status := .running, updated_at := 7 } :=
  ⟨(C10_no_state_machine [("j1", { jDemo with status := .completed })] "j1"
      .running 7 { jDemo with status := .completed } (by decide)).1,
   (C10_no_state_machine [("j1", { jDemo with status := .completed })] "j1"
      .running 7 { jDemo with status := .completed } (by decide)).2.1⟩

/-- C4: when the planner yields zero steps, `execute_task` silently stores the
empty plan: the job ends up Running with an empty plan and no steps, and the
call returns normally — there is no PlanningError path in the code.  (The
spec requires the empty plan to be a reportable failure with the job left in
Planning; this theorem documents the divergence.) -/
theorem C4_empty_plan_running (exec : Exec) (env : Env) (id task : String) (t0 : Nat) :
    execute_task exec env [] [] [] id task t0 =
      some [(id, { mkJob id task t0 with status := JobStatus.running })] := by
  simp [execute_task, create_job, update_job_status, set_job_plan, get_job,
        storeSet, execLoop, enumFrom, List.find?, mkJob]


theorem planMatch_of_eq {j j' : Job} (h : planMatch j)
    (hs : j'.steps = j.steps) (hp : j'.plan = j.plan) : planMatch j' := by
  rw [planMatch, hs, hp]; exact h

theorem planMatch_modify {j j' : Job} (h : planMatch j) (f : Step → Step)
    (hf : ∀ st, (f st).description = st.description) (k : Nat)
    (hs : j'.steps = modifyIdx f k j.steps) (hp : j'.plan = j.plan) :
    planMatch j' := by
  obtain ⟨hlen, hdesc⟩ := h
  constructor
  · rw [hs, hp, length_modifyIdx]; exact hlen
  · intro m hm
    rw [hp] at hm ⊢
    rw [hs]
    by_cases hmk : m = k
    · subst hmk
      have hkl : m < j.steps.length := by omega
      rw [getD_modifyIdx_eq _ _ _ _ hkl, hf]
      exact hdesc m hm
    · rw [getD_modifyIdx_ne _ _ _ _ _ hmk]
      exact hdesc m hm

theorem steps_setPlan_getD {plan : List String} {k : Nat} (hk : k < plan.length) :
    ((enumFrom 0 plan).map mkPlanStep).getD k defStep =
      mkPlanStep (k, plan.getD k "") := by
  rw [List.getD_eq_getElem?_getD, List.getElem?_map, getElem?_enumFrom,
      List.getElem?_eq_getElem hk]
  simp [List.getD_eq_getElem?_getD, List.getElem?_eq_getElem hk]

theorem planMatch_setPlan (j : Job) (plan : List String) (now : Nat) :
    planMatch { j with plan := plan, updated_at := now,
                       steps := (enumFrom 0 plan).map mkPlanStep,
                       status := .running } := by
  constructor
  · dsimp only
    rw [List.length_map, length_enumFrom]
  · intro k hk
    dsimp only at hk ⊢
    rw [steps_setPlan_getD hk]
    rfl

theorem planMatch_storeSet {s : Store} {id : String} {j : Job}
    (h : ∀ pr ∈ s, planMatch pr.2) (hj : planMatch j) :
    ∀ pr ∈ storeSet s id j, planMatch pr.2 := by
  intro pr hpr
  rw [storeSet, List.mem_map] at hpr
  obtain ⟨q, hq, rfl⟩ := hpr
  by_cases hqid : (q.1 == id) = true
  · rw [if_pos hqid]; exact hj
  · rw [if_neg hqid]; exact h q hq

theorem planMatch_get_job {s : Store} {id : String} {j : Job}
    (h : ∀ pr ∈ s, planMatch pr.2) (hj : get_job s id = some j) : planMatch j := by
  obtain ⟨key, hmem⟩ := get_job_mem hj
  exact h (key, j) hmem

theorem planMatch_mkJob (id task : String) (now : Nat) : planMatch (mkJob id task now) := by
  constructor
  · rfl
  · intro k hk
    simp [mkJob] at hk

theorem planMatch_update_job_status {s : Store} (id : String) (st : JobStatus)
    (now : Nat) (h : ∀ pr ∈ s, planMatch pr.2) :
    ∀ pr ∈ (update_job_status s id st now).2, planMatch pr.2 := by
  cases hj : get_job s id with
  | none => simpa [update_job_status, hj] using h
  | some j =>
      simp only [update_job_status, hj]
      exact planMatch_storeSet h
        (planMatch_of_eq (planMatch_get_job h hj) rfl rfl)

/-- C5 preservation: every store operation other than `set_job_plan` keeps
`planMatch` for every job in the store. -/
theorem planMatch_applyOp {s : Store} {op : StoreOp} (hop : op.isSetPlan = false)
    (h : ∀ pr ∈ s, planMatch pr.2) : ∀ pr ∈ applyOp s op, planMatch pr.2 := by
  cases op with
  | createJobOp id task now =>
      intro pr hpr
      rw [applyOp, create_job] at hpr
      rcases List.mem_append.mp hpr with hm | hm
      · exact h pr hm
      · rw [List.mem_singleton] at hm
        subst hm
        exact planMatch_mkJob id task now
  | updateStatusOp id st now => exact planMatch_update_job_status id st now h
  | setPlanOp id plan now => simp [StoreOp.isSetPlan] at hop
  | startStepOp id i now =>
      cases hj : get_job s id with
      | none => simpa [applyOp, start_step, hj] using h
      | some j =>
          by_cases hle : (j.steps.length : Int) ≤ i
          · simpa [applyOp, start_step, hj, hle] using h
          · cases hp : pyIdx j.steps.length i with
            | none => simpa [applyOp, start_step, hj, hle, hp] using h
            | some k =>
                simp only [applyOp, start_step, hj, if_neg hle, hp]
                exact planMatch_storeSet h
                  (planMatch_modify (planMatch_get_job h hj)
                    (fun st => { st with status := .running, started_at := some now })
                    (fun _ => rfl) k rfl rfl)
  | completeStepOp id i r st now =>
      cases hj : get_job s id with
      | none => simpa [applyOp, complete_step, hj] using h
      | some j =>
          by_cases hle : (j.steps.length : Int) ≤ i
          · simpa [applyOp, complete_step, hj, hle] using h
          · cases hp : pyIdx j.steps.length i with
            | none => simpa [applyOp, complete_step, hj, hle, hp] using h
            | some k =>
                simp only [applyOp, complete_step, hj, if_neg hle, hp]
                exact planMatch_storeSet h
                  (planMatch_modify (planMatch_get_job h hj)
                    (fun st2 => { st2 with
                        status := st, result := some r, completed_at := some now,
                        duration := st2.started_at.map
                          (fun t0 : Nat => (now : Int) - (t0 : Int)) })
                    (fun _ => rfl) k rfl rfl)
  | addArtifactOp id ty name path meta now =>
      cases hj : get_job s id with
      | none => simpa [applyOp, add_artifact, hj] using h
      | some j =>
          simp only [applyOp, add_artifact, hj]
          exact planMatch_storeSet h
            (planMatch_of_eq (planMatch_get_job h hj) rfl rfl)
  | setMemoryContextOp id ctx now =>
      cases hj : get_job s id with
      | none => simpa [applyOp, set_memory_context, hj] using h
      | some j =>
          simp only [applyOp, set_memory_context, hj]
          exact planMatch_storeSet h
            (planMatch_of_eq (planMatch_get_job h hj) rfl rfl)
  | setMetadataOp id k v now =>
      cases hj : get_job s id with
      | none => simpa [applyOp, set_metadata, hj] using h
      | some j =>
          simp only [applyOp, set_metadata, hj]
          exact planMatch_storeSet h
            (planMatch_of_eq (planMatch_get_job h hj) rfl rfl)
  | pauseOp id now => exact planMatch_update_job_status id .paused now h
  | resumeOp id now => exact planMatch_update_job_status id .running now h
  | abortOp id now => exact planMatch_update_job_status id .aborted now h
  | deleteOp id =>
      cases hj : get_job s id with
      | none => simpa [applyOp, delete_job, hj] using h
      | some j =>
          intro pr hpr
          simp only [applyOp, delete_job, hj] at hpr
          exact h pr (List.mem_filter.mp hpr).1

/-- C5: `set_job_plan` on an existing job succeeds, builds one Pending step
with null result/timestamps per plan entry (with matching description),
sets the job status to Running, and establishes
`len(steps) == len(plan)` with `steps[k].description == plan[k]`; and every
store operation other than another `set_job_plan` preserves that invariant
for every job in the store. -/
theorem C5_plan_steps_invariant :
    (∀ (s : Store) (id : String) (plan : List String) (now : Nat) (j : Job),
        get_job s id = some j →
        (set_job_plan s id plan now).1 = true ∧
        ∃ j', get_job (set_job_plan s id plan now).2 id = some j' ∧
          j'.plan = plan ∧ j'.status = .running ∧ planMatch j' ∧
          ∀ k, k < plan.length →
            (j'.steps.getD k defStep).description = plan.getD k "" ∧
            (j'.steps.getD k defStep).status = .pending ∧
            (j'.steps.getD k defStep).result = none ∧
            (j'.steps.getD k defStep).started_at = none ∧
            (j'.steps.getD k defStep).completed_at = none ∧
            (j'.steps.getD k defStep).duration = none) ∧
    (∀ (s : Store) (op : StoreOp), op.isSetPlan = false →
        (∀ pr ∈ s, planMatch pr.2) → ∀ pr ∈ applyOp s op, planMatch pr.2) := by
  refine ⟨?_, fun s op hop h => planMatch_applyOp hop h⟩
  intro s id plan now j hj
  refine ⟨by simp [set_job_plan, hj], ?_⟩
  refine ⟨{ j with
      plan := plan, updated_at := now,
      steps := (enumFrom 0 plan).map mkPlanStep, status := .running },
    ?_, rfl, rfl, planMatch_setPlan j plan now, ?_⟩
  · simp only [set_job_plan, hj]
    exact get_job_storeSet_self _ (by simp [hj])
  · intro k hk
    dsimp only
    rw [steps_setPlan_getD hk]
    exact ⟨rfl, rfl, rfl, rfl, rfl, rfl⟩

/-- Witness for C5 at a concrete job: setting the two-step plan on the fresh
job yields matching lengths and descriptions, and a `start_step` keeps the
invariant. -/
theorem C5_plan_steps_invariant_witness :
    ((set_job_plan (create_job [] "j1" "t" 0) "j1" ["a", "b"] 1).1 = true ∧
      ∃ j', get_job (set_job_plan (create_job [] "j1" "t" 0) "j1" ["a", "b"] 1).2 "j1" =
          some j' ∧
        j'.plan = ["a", "b"] ∧ j'.status = .running ∧ planMatch j' ∧
        ∀ k, k < (["a", "b"] : List String).length →
          (j'.steps.getD k defStep).description = (["a", "b"] : List String).getD k "" ∧
          (j'.steps.getD k defStep).status = .pending ∧
          (j'.steps.getD k defStep).result = none ∧
          (j'.steps.getD k defStep).started_at = none ∧
          (j'.steps.getD k defStep).completed_at = none ∧
          (j'.steps.getD k defStep).duration = none) ∧
    (∀ pr ∈ applyOp sDemo (.startStepOp "j1" 0 3), planMatch pr.2) :=
  ⟨C5_plan_steps_invariant.1 (create_job [] "j1" "t" 0) "j1" ["a", "b"] 1
      (mkJob "j1" "t" 0) (by decide),
   C5_plan_steps_invariant.2 sDemo (.startStepOp "j1" 0 3) (by decide)
      (by decide)⟩


theorem storeInv_storeSet {s : Store} {id : String} {j : Job}
    (h : storeInv s) (hj : ∀ st ∈ j.steps, durationInv st) :
    storeInv (storeSet s id j) := by
  intro pr hpr
  rw [storeSet, List.mem_map] at hpr
  obtain ⟨q, hq, rfl⟩ := hpr
  by_cases hqid : (q.1 == id) = true
  · rw [if_pos hqid]; exact hj
  · rw [if_neg hqid]; exact h q hq

theorem storeInv_get_job {s : Store} {id : String} {j : Job}
    (h : storeInv s) (hj : get_job s id = some j) : ∀ st ∈ j.steps, durationInv st := by
  obtain ⟨key, hmem⟩ := get_job_mem hj
  exact h (key, j) hmem

theorem storeInv_update {s : Store} (id : String) (st : JobStatus) (now : Nat)
    (h : storeInv s) : storeInv (update_job_status s id st now).2 := by
  cases hj : get_job s id with
  | none => simpa [update_job_status, hj] using h
  | some j =>
      simp only [update_job_status, hj]
      exact storeInv_storeSet h (storeInv_get_job (j := j) h hj)

/-- `durationInv` is preserved by every store operation. -/
theorem storeInv_applyOp {s : Store} (h : storeInv s) (op : StoreOp) :
    storeInv (applyOp s op) := by
  cases op with
  | createJobOp id task now =>
      intro pr hpr
      rw [applyOp, create_job] at hpr
      rcases List.mem_append.mp hpr with hm | hm
      · exact h pr hm
      · rw [List.mem_singleton] at hm
        subst hm
        intro st hst
        simp [mkJob] at hst
  | updateStatusOp id st now => exact storeInv_update id st now h
  | setPlanOp id plan now =>
      cases hj : get_job s id with
      | none => simpa [applyOp, set_job_plan, hj] using h
      | some j =>
          simp only [applyOp, set_job_plan, hj]
          refine storeInv_storeSet h ?_
          intro st hst
          dsimp only at hst
          rw [List.mem_map] at hst
          obtain ⟨p, _, rfl⟩ := hst
          intro hterm
          simp [stepTerminal, mkPlanStep] at hterm
  | startStepOp id i now =>
      cases hj : get_job s id with
      | none => simpa [applyOp, start_step, hj] using h
      | some j =>
          by_cases hle : (j.steps.length : Int) ≤ i
          · simpa [applyOp, start_step, hj, hle] using h
          · cases hp : pyIdx j.steps.length i with
            | none => simpa [applyOp, start_step, hj, hle, hp] using h
            | some k =>
                simp only [applyOp, start_step, hj, if_neg hle, hp]
                refine storeInv_storeSet h ?_
                intro st hst
                dsimp only at hst
                rcases mem_modifyIdx _ _ _ hst with hm | ⟨b, _, rfl⟩
                · exact storeInv_get_job h hj st hm
                · intro hterm
                  simp [stepTerminal] at hterm
  | completeStepOp id i r st now =>
      cases hj : get_job s id with
      | none => simpa [applyOp, complete_step, hj] using h
      | some j =>
          by_cases hle : (j.steps.length : Int) ≤ i
          · simpa [applyOp, complete_step, hj, hle] using h
          · cases hp : pyIdx j.steps.length i with
            | none => simpa [applyOp, complete_step, hj, hle, hp] using h
            | some k =>
                simp only [applyOp, complete_step, hj, if_neg hle, hp]
                refine storeInv_storeSet h ?_
                intro st2 hst
                dsimp only at hst
                rcases mem_modifyIdx _ _ _ hst with hm | ⟨b, _, rfl⟩
                · exact storeInv_get_job h hj st2 hm
                · intro _
                  refine ⟨rfl, rfl, ?_⟩
                  exact Option.isSome_map'
  | addArtifactOp id ty name path meta now =>
      cases hj : get_job s id with
      | none => simpa [applyOp, add_artifact, hj] using h
      | some j =>
          simp only [applyOp, add_artifact, hj]
          exact storeInv_storeSet h (storeInv_get_job (j := j) h hj)
  | setMemoryContextOp id ctx now =>
      cases hj : get_job s id with
      | none => simpa [applyOp, set_memory_context, hj] using h
      | some j =>
          simp only [applyOp, set_memory_context, hj]
          exact storeInv_storeSet h (storeInv_get_job (j := j) h hj)
  | setMetadataOp id k v now =>
      cases hj : get_job s id with
      | none => simpa [applyOp, set_metadata, hj] using h
      | some j =>
          simp only [applyOp, set_metadata, hj]
          exact storeInv_storeSet h (storeInv_get_job (j := j) h hj)
  | pauseOp id now => exact storeInv_update id .paused now h
  | resumeOp id now => exact storeInv_update id .running now h
  | abortOp id now => exact storeInv_update id .aborted now h
  | deleteOp id =>
      cases hj : get_job s id with
      | none => simpa [applyOp, delete_job, hj] using h
      | some j =>
          intro pr hpr
          simp only [applyOp, delete_job, hj] at hpr
          exact h pr (List.mem_filter.mp hpr).1

theorem storeInv_applyOps (ops : List StoreOp) :
    ∀ s, storeInv s → storeInv (applyOps s ops) := by
  induction ops with
  | nil => intro s h; exact h
  | cons op rest ih => intro s h; exact ih _ (storeInv_applyOp h op)


/-- C3 counterexample: a store reachable through the store's operations in
which the claimed nullity pattern fails — step 0 of `jBad` is Completed yet
has null `duration` (it was completed without ever being started, so its
`startedAt` is also null although its status left Pending), and step 1 is
Running (non-terminal) yet carries a non-null `result`. -/
theorem C3_counterexample :
    reachable sBad ∧
    ¬(∀ pr ∈ sBad, ∀ st ∈ pr.2.steps, resultNullityOk st) :=
  ⟨⟨[.createJobOp "j1" "t" 0, .setPlanOp "j1" ["a", "b"] 1,
     .completeStepOp "j1" 0 "r" .completed 2,
     .startStepOp "j1" 1 3, .completeStepOp "j1" 1 "r1" .completed 4,
     .startStepOp "j1" 1 5], rfl⟩,
   by decide⟩

/-- C3 amended: in every store reachable through the store's operations,
every step whose status is Completed or Failed has non-null `result` and
`completedAt`, and its `duration` is non-null exactly when its `startedAt`
is non-null.  (The converse nullity directions and the startedAt-history
clause fail, see the counterexample.) -/
theorem C3_nullity_invariant (s : Store) (hs : reachable s) :
    ∀ pr ∈ s, ∀ st ∈ pr.2.steps, stepTerminal st = true →
      st.result.isSome = true ∧ st.completed_at.isSome = true ∧
      st.duration.isSome = st.started_at.isSome := by
  obtain ⟨ops, rfl⟩ := hs
  exact storeInv_applyOps ops []
    (by intro pr hpr; exact absurd hpr (List.not_mem_nil pr))

/-- Witness for the amended C3 at the concrete reachable store `sBad`:
step 0 is terminal with non-null result and completedAt, and null duration
matching its null startedAt. -/
theorem C3_nullity_invariant_witness :
    (jBad.steps.getD 0 defStep).result.isSome = true ∧
    (jBad.steps.getD 0 defStep).completed_at.isSome = true ∧
    (jBad.steps.getD 0 defStep).duration.isSome =
      (jBad.steps.getD 0 defStep).started_at.isSome :=
  C3_nullity_invariant sBad
    ⟨[.createJobOp "j1" "t" 0, .setPlanOp "j1" ["a", "b"] 1,
      .completeStepOp "j1" 0 "r" .completed 2,
      .startStepOp "j1" 1 3, .completeStepOp "j1" 1 "r1" .completed 4,
      .startStepOp "j1" 1 5], rfl⟩
    ("j1", jBad) (by decide) (jBad.steps.getD 0 defStep) (by decide) (by decide)

/-- C8: `retry_step` on an existing job with an in-range index re-executes
exactly that step regardless of its current status: it overwrites that
step's `startedAt`/`completedAt`/`duration`/`status`/`result` (keeping its
description), leaves every other step and the job's plan unchanged, and
returns True on executor success and False on executor failure (recording
the error text). -/
theorem C8_retry_frame (exec : Exec) (s : Store) (id : String) (i : Int)
    (t : Nat) (j : Job) (hj : get_job s id = some j) (h0 : 0 ≤ i)
    (hi : i < (j.steps.length : Int)) :
    ∃ j', get_job (retry_step exec s id i t).2 id = some j' ∧
      j'.plan = j.plan ∧
      j'.steps.length = j.steps.length ∧
      (∀ m, m ≠ i.toNat → j'.steps.getD m defStep = j.steps.getD m defStep) ∧
      (j'.steps.getD i.toNat defStep).started_at = some t ∧
      (j'.steps.getD i.toNat defStep).completed_at = some (t + 1) ∧
      (j'.steps.getD i.toNat defStep).duration = some 1 ∧
      (j'.steps.getD i.toNat defStep).description =
        (j.steps.getD i.toNat defStep).description ∧
      (match exec ((j.steps.getD i.toNat defStep).description) with
       | .ok r =>
           (retry_step exec s id i t).1 = true ∧
           (j'.steps.getD i.toNat defStep).status = .completed ∧
           (j'.steps.getD i.toNat defStep).result = some r
       | .error e =>
           (retry_step exec s id i t).1 = false ∧
           (j'.steps.getD i.toNat defStep).status = .failed ∧
           (j'.steps.getD i.toNat defStep).result =
             some ("Error executing step: " ++ e)) := by
  have h1 : ¬(i < 0) := not_lt.mpr h0
  have h2 : ¬((j.steps.length : Int) ≤ i) := not_le.mpr hi
  have hcond : (decide (i < 0) || decide ((j.steps.length : Int) ≤ i)) = false := by
    simp [h1, h2]
  cases hex : exec ((j.steps.getD i.toNat defStep).description) with
  | ok r =>
      have hrw : retry_step exec s id i t =
          (true, (complete_step (start_step s id i t).2 id i r .completed (t + 1)).2) := by
        simp only [retry_step, hj, hcond, Bool.false_eq_true, if_false, hex]
      obtain ⟨j', hg, hplan, hlen, hfr, hstep, _⟩ :=
        step_exec_spec s id j i r .completed t hj h0 hi
      rw [hrw]
      exact ⟨j', hg, hplan, hlen, hfr,
        by rw [hstep], by rw [hstep], by rw [hstep], by rw [hstep],
        ⟨rfl, by rw [hstep], by rw [hstep]⟩⟩
  | error e =>
      have hrw : retry_step exec s id i t =
          (false, (complete_step (start_step s id i t).2 id i
            ("Error executing step: " ++ e) .failed (t + 1)).2) := by
        simp only [retry_step, hj, hcond, Bool.false_eq_true, if_false, hex]
      obtain ⟨j', hg, hplan, hlen, hfr, hstep, _⟩ :=
        step_exec_spec s id j i ("Error executing step: " ++ e) .failed t hj h0 hi
      rw [hrw]
      exact ⟨j', hg, hplan, hlen, hfr,
        by rw [hstep], by rw [hstep], by rw [hstep], by rw [hstep],
        ⟨rfl, by rw [hstep], by rw [hstep]⟩⟩


/-- Witness for C8: retrying the already-Completed step 0 of `jRet` at time 9
overwrites its timestamps, duration, status and result while step 1 and the
plan are untouched. -/
theorem C8_retry_frame_witness :
    ∃ j', get_job (retry_step exOk sRet "j1" 0 9).2 "j1" = some j' ∧
      j'.plan = jRet.plan ∧
      j'.steps.length = jRet.steps.length ∧
      (∀ m, m ≠ 0 → j'.steps.getD m defStep = jRet.steps.getD m defStep) ∧
      (j'.steps.getD 0 defStep).started_at = some 9 ∧
      (j'.steps.getD 0 defStep).completed_at = some 10 ∧
      (j'.steps.getD 0 defStep).duration = some 1 ∧
      (j'.steps.getD 0 defStep).description = (jRet.steps.getD 0 defStep).description ∧
      ((retry_step exOk sRet "j1" 0 9).1 = true ∧
       (j'.steps.getD 0 defStep).status = .completed ∧
       (j'.steps.getD 0 defStep).result = some ("done a")) :=
  C8_retry_frame exOk sRet "j1" 0 9 jRet (by decide) (by decide) (by decide)

/-- First pending-or-running index: it is in range, incomplete, and all
earlier steps are not pending/running. -/
theorem findFirstIncomplete_spec :
    ∀ {l : List Step} {k : Nat}, findFirstIncomplete l = some k →
      k < l.length ∧ stepIncomplete (l.getD k defStep) = true ∧
      ∀ m, m < k → stepIncomplete (l.getD m defStep) = false := by
  intro l
  induction l with
  | nil => intro k h; simp [findFirstIncomplete] at h
  | cons st rest ih =>
      intro k h
      by_cases hst : stepIncomplete st = true
      · simp only [findFirstIncomplete, hst, if_true, Option.some.injEq] at h
        subst h
        exact ⟨Nat.succ_pos _, hst, fun m hm => absurd hm (Nat.not_lt_zero m)⟩
      · simp only [findFirstIncomplete, hst, Bool.false_eq_true, if_false] at h
        cases hf : findFirstIncomplete rest with
        | none => rw [hf] at h; simp at h
        | some k' =>
            rw [hf] at h
            simp only [Option.map_some', Option.some.injEq] at h
            subst h
            obtain ⟨hlt, hat, hbefore⟩ := ih hf
            refine ⟨by simpa using Nat.succ_lt_succ hlt, by simpa using hat, ?_⟩
            intro m hm
            cases m with
            | zero =>
                simpa using Bool.eq_false_iff.mpr hst
            | succ m' =>
                simpa using hbefore m' (Nat.lt_of_succ_lt_succ hm)

/-- C6: in the execution loop (shared by `execute_task` and
`AgentRunner.resume_job`), the job is re-read before each step; if its status
is then Paused or Aborted the loop stops at once, returning the store as it
stood — the pending step of that iteration and all later steps are neither
executed nor marked, and the job's steps are exactly what they were at loop
entry (the administrative status write touches no step). -/
theorem C6_pause_halts (exec : Exec) (env : Env) (id : String) (i : Nat)
    (d : String) (rest : List (Nat × String)) (t : Nat) (s : Store)
    (j0 j : Job) (hj0 : get_job s id = some j0)
    (hj : get_job (applyEnv env i id t s) id = some j)
    (hst : j.status = .paused ∨ j.status = .aborted) :
    execLoop exec env id ((i, d) :: rest) t s = some (applyEnv env i id t s) ∧
    j.steps = j0.steps := by
  have hb : (j.status == JobStatus.aborted || j.status == JobStatus.paused) = true := by
    rcases hst with h | h <;> simp [h]
  constructor
  · simp only [execLoop, hj, if_pos hb]
  · obtain ⟨j', hg', hsteps, _, _⟩ := applyEnv_spec env i t hj0
    rw [hg'] at hj
    obtain rfl := Option.some_injective _ hj
    exact hsteps

/-- Witness for C6: with a concurrent pause before iteration 0, the loop over
the two-step plan returns immediately and the job's steps are unchanged. -/
theorem C6_pause_halts_witness :
    execLoop exOk envPause "j1" [(0, "a"), (1, "b")] 9 sDemo =
      some (applyEnv envPause 0 "j1" 9 sDemo) ∧
    ({ jDemo with status := JobStatus.paused, updated_at := 9 } : Job).steps =
      jDemo.steps :=
  C6_pause_halts exOk envPause "j1" 0 "a" [(1, "b")] 9 sDemo jDemo
    { jDemo with status := JobStatus.paused, updated_at := 9 }
    (by decide) (by decide) (Or.inl rfl)

/-- C7: an executor failure at a step is absorbed at the per-step boundary:
the loop records that step as Failed with `"Error executing step: " ++ e` as
its result and continues with the remaining steps; the loop never raises as
long as the job is present; `AgentRunner.resume_job` never ends in the
crashed outcome on a present job; and `execute_task` always returns
normally. -/
theorem C7_executor_failure :
    (∀ (exec : Exec) (env : Env) (id : String) (i : Nat) (d : String)
        (rest : List (Nat × String)) (t : Nat) (s : Store) (j : Job) (e : String),
        get_job (applyEnv env i id t s) id = some j →
        (j.status == JobStatus.aborted || j.status == JobStatus.paused) = false →
        exec d = .error e →
        i < j.steps.length →
        ∃ s2 j2, execLoop exec env id ((i, d) :: rest) t s =
            execLoop exec env id rest (t + 2) s2 ∧
          get_job s2 id = some j2 ∧
          (j2.steps.getD i defStep).status = .failed ∧
          (j2.steps.getD i defStep).result =
            some ("Error executing step: " ++ e)) ∧
    (∀ (exec : Exec) (env : Env) (id : String) (l : List (Nat × String))
        (t : Nat) (s : Store), (get_job s id).isSome = true →
        (execLoop exec env id l t s).isSome = true) ∧
    (∀ (exec : Exec) (env : Env) (s : Store) (id : String) (t : Nat),
        (get_job s id).isSome = true →
        (AgentRunner.resume_job exec env s id t).1 ≠ .crashed) ∧
    (∀ (exec : Exec) (env : Env) (plan mem : List String) (s : Store)
        (id task : String) (t0 : Nat),
        (execute_task exec env plan mem s id task t0).isSome = true) := by
  refine ⟨?_, execLoop_isSome, ?_, ?_⟩
  · intro exec env id i d rest t s j e hj hst hex hi
    obtain ⟨j2, hg2, _, _, hfr2, hstep2, _⟩ :=
      step_exec_spec (applyEnv env i id t s) id j (i : Int)
        ("Error executing step: " ++ e) .failed t hj (Int.natCast_nonneg i)
        (by exact_mod_cast hi)
    refine ⟨_, j2, ?_, hg2, ?_, ?_⟩
    · simp only [execLoop, hj, hst, Bool.false_eq_true, if_false, hex]
    · rw [show ((i : Int)).toNat = i from Int.toNat_natCast i] at hstep2
      rw [hstep2]
    · rw [show ((i : Int)).toNat = i from Int.toNat_natCast i] at hstep2
      rw [hstep2]
  · intro exec env s id t h
    cases hj : get_job s id with
    | none => rw [hj] at h; simp at h
    | some j =>
        by_cases he : (j.status == JobStatus.paused || j.status == JobStatus.running) = true
        · cases hf : findFirstIncomplete j.steps with
          | none => simp [AgentRunner.resume_job, hj, he, hf]
          | some k =>
              have hpres : (get_job (update_job_status s id .running t).2 id).isSome = true := by
                rw [isSome_update_job_status]; exact h
              have hsome := execLoop_isSome exec env id
                (enumFrom k ((j.steps.drop k).map (fun st => st.description)))
                (t + 1) _ hpres
              cases hrun : execLoop exec env id
                  (enumFrom k ((j.steps.drop k).map (fun st => st.description)))
                  (t + 1) (update_job_status s id .running t).2 with
              | none => rw [hrun] at hsome; simp at hsome
              | some s2 =>
                  have hres : AgentRunner.resume_job exec env s id t =
                      (.resumed, s2) := by
                    simp only [AgentRunner.resume_job, hj, if_pos he, hf, hrun]
                  rw [hres]
                  simp
        · simp [AgentRunner.resume_job, hj, he]
  · intro exec env plan mem s id task t0
    apply execLoop_isSome
    rw [isSome_set_job_plan]
    by_cases hmem : mem.isEmpty = true
    · simp only [hmem, if_true]
      rw [isSome_update_job_status]
      exact isSome_get_job_create_self ..
    · simp only [hmem, Bool.false_eq_true, if_false]
      rw [isSome_set_memory_context, isSome_update_job_status]
      exact isSome_get_job_create_self ..

/-- Witness for C7: on `sDemo`, with the always-failing executor, iteration 0
is recorded as a Failed step with the error text and the loop proceeds to
step 1; resume on the present job does not crash; `execute_task` returns
normally on a concrete plan. -/
theorem C7_executor_failure_witness :
    (∃ s2 j2, execLoop exErr envNone "j1" [(0, "a"), (1, "b")] 9 sDemo =
        execLoop exErr envNone "j1" [(1, "b")] 11 s2 ∧
      get_job s2 "j1" = some j2 ∧
      (j2.steps.getD 0 defStep).status = .failed ∧
      (j2.steps.getD 0 defStep).result =
        some ("Error executing step: " ++ "boom")) ∧
    (AgentRunner.resume_job exErr envNone sDemo "j1" 9).1 ≠ .crashed ∧
    (execute_task exErr envNone ["a"] [] [] "j9" "t" 0).isSome = true :=
  ⟨C7_executor_failure.1 exErr envNone "j1" 0 "a" [(1, "b")] 9 sDemo jDemo
      "boom" (by decide) (by decide) rfl (by decide),
   C7_executor_failure.2.2.1 exErr envNone sDemo "j1" 9 (by decide),
   C7_executor_failure.2.2.2 exErr envNone ["a"] [] [] "j9" "t" 0⟩

/-- C2: `AgentRunner.resume_job` returns not-found for a missing id and
cannot-resume for a job whose status is not Paused/Running, both without
touching the store; on an eligible job it first sets the status to Running,
then: when no step is Pending or Running it reports the distinct
nothing-to-do outcome (the store only carries the status write); when the
first Pending-or-Running step is at index `k`, it resumes there (every
earlier step is terminal) and the run leaves all steps before `k` untouched.
The Python boolean return is True only for the resumed outcome. -/
theorem C2_resume_semantics :
    (∀ (exec : Exec) (env : Env) (s : Store) (id : String) (t : Nat),
        get_job s id = none →
        AgentRunner.resume_job exec env s id t = (.notFound, s)) ∧
    (∀ (exec : Exec) (env : Env) (s : Store) (id : String) (t : Nat) (j : Job),
        get_job s id = some j → j.status ≠ .paused → j.status ≠ .running →
        AgentRunner.resume_job exec env s id t = (.cannotResume, s)) ∧
    (∀ (exec : Exec) (env : Env) (s : Store) (id : String) (t : Nat) (j : Job),
        get_job s id = some j → (j.status = .paused ∨ j.status = .running) →
        findFirstIncomplete j.steps = none →
        AgentRunner.resume_job exec env s id t =
          (.nothingToDo, (update_job_status s id .running t).2) ∧
        get_job (AgentRunner.resume_job exec env s id t).2 id =
          some { j with status := .running, updated_at := t }) ∧
    (∀ (exec : Exec) (env : Env) (s : Store) (id : String) (t : Nat) (j : Job)
        (k : Nat),
        get_job s id = some j → (j.status = .paused ∨ j.status = .running) →
        findFirstIncomplete j.steps = some k →
        (AgentRunner.resume_job exec env s id t).1 = .resumed ∧
        k < j.steps.length ∧
        stepIncomplete (j.steps.getD k defStep) = true ∧
        (∀ m, m < k → stepIncomplete (j.steps.getD m defStep) = false) ∧
        get_job (update_job_status s id .running t).2 id =
          some { j with status := .running, updated_at := t } ∧
        ∃ j', get_job (AgentRunner.resume_job exec env s id t).2 id = some j' ∧
          j'.steps.length = j.steps.length ∧
          ∀ m, m < k → j'.steps.getD m defStep = j.steps.getD m defStep) ∧
    (ResumeResult.toBool .notFound = false ∧
     ResumeResult.toBool .cannotResume = false ∧
     ResumeResult.toBool .nothingToDo = false ∧
     ResumeResult.toBool .resumed = true) := by
  refine ⟨?_, ?_, ?_, ?_, rfl, rfl, rfl, rfl⟩
  · intro exec env s id t h
    simp [AgentRunner.resume_job, h]
  · intro exec env s id t j hj hp hr
    have hb : (j.status == JobStatus.paused || j.status == JobStatus.running) = false := by
      cases hcs : j.status <;> simp_all
    simp [AgentRunner.resume_job, hj, hb]
  · intro exec env s id t j hj hst hf
    have hb : (j.status == JobStatus.paused || j.status == JobStatus.running) = true := by
      rcases hst with h | h <;> simp [h]
    have hres : AgentRunner.resume_job exec env s id t =
        (.nothingToDo, (update_job_status s id .running t).2) := by
      simp only [AgentRunner.resume_job, hj, if_pos hb, hf]
    exact ⟨hres, by rw [hres]; exact get_job_update_self _ t hj⟩
  · intro exec env s id t j k hj hst hf
    have hb : (j.status == JobStatus.paused || j.status == JobStatus.running) = true := by
      rcases hst with h | h <;> simp [h]
    have hup : get_job (update_job_status s id .running t).2 id =
        some { j with status := .running, updated_at := t } :=
      get_job_update_self _ t hj
    have hpres : (get_job (update_job_status s id .running t).2 id).isSome = true := by
      rw [hup]; rfl
    have hsome := execLoop_isSome exec env id
      (enumFrom k ((j.steps.drop k).map (fun st => st.description)))
      (t + 1) _ hpres
    cases hrun : execLoop exec env id
        (enumFrom k ((j.steps.drop k).map (fun st => st.description)))
        (t + 1) (update_job_status s id .running t).2 with
    | none => rw [hrun] at hsome; simp at hsome
    | some s2 =>
        have hres : AgentRunner.resume_job exec env s id t = (.resumed, s2) := by
          simp only [AgentRunner.resume_job, hj, if_pos hb, hf, hrun]
        obtain ⟨hk, hat, hbefore⟩ := findFirstIncomplete_spec hf
        obtain ⟨j', hg', hlen', _, hfr'⟩ :=
          execLoop_frame exec env id k
            (enumFrom k ((j.steps.drop k).map (fun st => st.description)))
            (t + 1) _ s2 (fun p hp => fst_le_of_mem_enumFrom hp) hrun
            { j with status := .running, updated_at := t } hup
        refine ⟨by rw [hres], hk, hat, hbefore, hup, j', by rw [hres]; exact hg',
          hlen', hfr'⟩

/-- Witness for C2 at `sRet` (step 0 Completed, step 1 Pending, job Running):
resume succeeds, resumes exactly at index 1 (step 0 is terminal), and leaves
step 0 untouched; and the boolean returns are as encoded. -/
theorem C2_resume_semantics_witness :
    (AgentRunner.resume_job exOk envNone sRet "j1" 20).1 = .resumed ∧
    1 < jRet.steps.length ∧
    stepIncomplete (jRet.steps.getD 1 defStep) = true ∧
    (∀ m, m < 1 → stepIncomplete (jRet.steps.getD m defStep) = false) ∧
    get_job (update_job_status sRet "j1" .running 20).2 "j1" =
      some { jRet with status := .running, updated_at := 20 } ∧
    ∃ j', get_job (AgentRunner.resume_job exOk envNone sRet "j1" 20).2 "j1" =
        some j' ∧
      j'.steps.length = jRet.steps.length ∧
      ∀ m, m < 1 → j'.steps.getD m defStep = jRet.steps.getD m defStep :=
  C2_resume_semantics.2.2.2.1 exOk envNone sRet "j1" 20 jRet 1
    (by decide) (Or.inr rfl) (by decide)
